import Mathlib

/-!
Shallow embedding of the EDF-to-CFS conversion pipeline (`src/edf2cfs.cpp`
together with the sigpack headers under `src/sigpack/`), and proofs settling
the specification claims about it.

Bytes are modelled as natural numbers below 256, byte streams as `List ℕ`.
Machine integers are modelled as `ℕ` with explicit `% 2^w` at the points where
the C code truncates.  Real-valued DSP code (`double` arithmetic) is modelled
over `ℝ`.  External primitives that the repository only declares (SHA-1,
DEFLATE, the EDF reader) are abstract parameters; parts of this repository's
own dependency tree that are not under `src/` (sigpack's window module,
`resample.h`) are modelled from the spec and marked as such in their doc
comments.
-/

namespace Edf2Cfs

/- ## Epoch count and payload sizing (edf2cfs.cpp lines 593-596, 628-644) -/

/-- Embeds `int epochs = (int)(((double)eegFilt.n_elem) / 3000);`
(edf2cfs.cpp line 593).  For every length reachable by the program (the
payload allocation `epochs*epochSize` must fit an `int`, so `L < 2.2e9`),
the double division followed by truncation agrees exactly with natural
floor division by 3000. -/
def epochs (L : ℕ) : ℕ := L / 3000

/-- Embeds `static int epochSize = 32 * 32 * 3;` (edf2cfs.cpp line 595). -/
def epochSize : ℕ := 32 * 32 * 3

/-- Embeds `unsigned long sourceLen = (fPayload.size())*sizeof(float);`
(edf2cfs.cpp line 632): the payload vector holds `epochs*epochSize` floats
(line 596), each 4 bytes. -/
def sourceLen (E : ℕ) : ℕ := E * epochSize * 4

/-- Embeds `uint16_t nEpochs = epochs;` (edf2cfs.cpp line 642): the epoch
count is truncated to 16 bits with no range check. -/
def nEpochsField (L : ℕ) : ℕ := epochs L % 65536

/- ## CFS container bytes, little-endian host path (edf2cfs.cpp lines 636-705) -/

/-- Little-endian byte image of a 16-bit value, as laid out in memory on a
little-endian host and written by `fwrite((Bytef*)&nEpochs, 1, 2, file)`
(edf2cfs.cpp line 689). -/
def u16le (n : ℕ) : List ℕ := [n % 256, n / 256 % 256]

/-- The 31-byte CFS header written by edf2cfs.cpp lines 683-698 on a
little-endian host: signature `"CFS"` (0x43 0x46 0x53), `version = 1`,
`nFreq = 32`, `nTimes = 32`, `nChannels = 3`, `nEpochs` as little-endian
uint16, `compression = 1`, `hash = 1`, then the 20-byte SHA-1 digest. -/
def cfsHeader (e16 : ℕ) (sha : List ℕ) : List ℕ :=
  [67, 70, 83] ++ [1] ++ [32] ++ [32] ++ [3] ++ u16le e16 ++ [1] ++ [1] ++ sha

/-- The full byte stream written on a little-endian host (edf2cfs.cpp lines
683-705): header followed by the DEFLATE stream. -/
def cfsBytesLE (e16 : ℕ) (sha defl : List ℕ) : List ℕ :=
  cfsHeader e16 sha ++ defl

/-- The emission stage of `convertFile` on a little-endian host, parametric
in the external SHA-1 and DEFLATE primitives (`SHA1.h` and zlib are assumed
byte-in/byte-out collaborators, not part of `src/`): the header field is the
truncated epoch count for resampled-EEG length `L` (lines 593, 642), the
digest is SHA-1 of the uncompressed float32 payload bytes (lines 648-650),
and the trailing stream is DEFLATE of the same bytes (line 662). -/
def convertOutput (sha1 deflate : List ℕ → List ℕ)
    (L : ℕ) (payloadBytes : List ℕ) : List ℕ :=
  cfsBytesLE (nEpochsField L) (sha1 payloadBytes) (deflate payloadBytes)

/-- Modelled from the spec: `resample.h` is declared by edf2cfs.cpp (line 27)
but is not under `src/`.  Spec section 4.3: the resampler output length is
`round(L * fT / fs)` with `fT = 100`, and the resampler is bypassed when the
integer rate already equals 100 (edf2cfs.cpp line 554 applies it only when
`(int)fs != SAMPLINGRATE`).  `round` on the exact rational `a / b` is
computed as `(2*a + b) / (2*b)` in ℕ. -/
def resampledLen (L fs : ℕ) : ℕ :=
  if fs = 100 then L else (2 * (L * 100) + fs) / (2 * fs)

/- ## Channel label matching (edf2cfs.cpp lines 366-418, 744-753) -/

/-- C `tolower` in the default locale on a single byte (edf2cfs.cpp line
748): ASCII uppercase letters are shifted to lowercase, every other byte is
unchanged. -/
def toLowerByte (b : ℕ) : ℕ := if 65 ≤ b ∧ b ≤ 90 then b + 32 else b

/-- Embeds `char *strlwr(char *str)` (edf2cfs.cpp lines 744-753): lowercases
every byte of the string in place. -/
def strlwr (s : List ℕ) : List ℕ := s.map toLowerByte

/-- Embeds the label lookup of `convertFile` (edf2cfs.cpp lines 366-376):
every EDF signal label is lowercased into `allLabels` (line 367), then
`std::find` locates the first element equal to the requested label exactly
as given, and `std::distance` turns it into the signal index.  The requested
label itself is NOT lowercased on this path. -/
def findChannel (edfLabels : List (List ℕ)) (requested : List ℕ) : Option ℕ :=
  (edfLabels.map strlwr).findIdx? (fun l => l == requested)

/-- Embeds the four sequential role lookups of `convertFile` (edf2cfs.cpp
lines 372-418): C3, C4, EL, ER in that order, each failing the job with a
label-not-found error (encoded as the role number 0/1/2/3) when the lookup
comes back empty. -/
def resolveChannels (edfLabels : List (List ℕ)) (rC3 rC4 rEL rER : List ℕ) :
    Except ℕ (ℕ × ℕ × ℕ × ℕ) :=
  match findChannel edfLabels rC3 with
  | none => .error 0
  | some nC3 =>
    match findChannel edfLabels rC4 with
    | none => .error 1
    | some nC4 =>
      match findChannel edfLabels rEL with
      | none => .error 2
      | some nEL =>
        match findChannel edfLabels rER with
        | none => .error 3
        | some nER => .ok (nC3, nC4, nEL, nER)

/- ## Raw sample read stage (edf2cfs.cpp lines 453-509) -/

/-- Per-signal metadata exposed by the EDF reader (`edf_hdr_struct
.signalparam[i]`), restricted to the fields the read stage touches. -/
structure SigParam where
  smp_in_file : ℕ
  smp_in_datarecord : ℕ
  deriving DecidableEq

/-- Embeds `long long totSamples = hdr.signalparam[nC3].smp_in_file;`
(edf2cfs.cpp line 453). -/
def totSamples (sig : ℕ → SigParam) (nC3 : ℕ) : ℕ := (sig nC3).smp_in_file

/-- Sizes of the four raw-sample buffers
`vector<double> bufC3(totSamples); ... bufER(totSamples);`
(edf2cfs.cpp lines 456-459), in declaration order C3, C4, EL, ER. -/
def bufSizes (sig : ℕ → SigParam) (nC3 nC4 nEL nER : ℕ) : ℕ × ℕ × ℕ × ℕ :=
  (totSamples sig nC3, totSamples sig nC3, totSamples sig nC3, totSamples sig nC3)

/-- Sample counts requested from the EDF reader by the four
`edfread_physical_samples(hdl, nX, totSamples, &bufX[0])` calls
(edf2cfs.cpp lines 466, 478, 490, 502), in call order C3, C4, EL, ER. -/
def readCounts (sig : ℕ → SigParam) (nC3 nC4 nEL nER : ℕ) : ℕ × ℕ × ℕ × ℕ :=
  (totSamples sig nC3, totSamples sig nC3, totSamples sig nC3, totSamples sig nC3)

/- ## Big-endian emission path (edf2cfs.cpp lines 688-703, 732-738) -/

/-- Inner loop of `writeByteReversed` (edf2cfs.cpp line 734):
`for (int j = byteSize - 1; j < 0; j--)`.  The loop guard is tested before
the first iteration; when `byteSize ≥ 1` it is false immediately, so the
body runs zero times and no byte is emitted (`some []`).  When the guard
holds at entry (`byteSize ≤ 0`), `j` only decreases, the guard stays true
and the C loop never terminates; that case is modelled as `none`. -/
def wbrInner (byteSize : ℤ) : Option (List ℕ) :=
  if byteSize - 1 < 0 then none else some []

/-- Offsets visited by the outer loop of `writeByteReversed` (edf2cfs.cpp
line 733): `for (unsigned long offset = 0; offset < streamSize; offset +=
byteSize)`, i.e. the multiples of `byteSize` below `streamSize`, ascending. -/
def wbrOffsets (byteSize streamSize : ℕ) : List ℕ :=
  (List.range streamSize).filter (fun o => o % byteSize == 0)

/-- Embeds `void writeByteReversed(FILE*, Bytef*, int, unsigned long)`
(edf2cfs.cpp lines 732-738) as the byte list it emits, `none` modelling the
non-terminating inner loop.  Because the inner loop guard `j < 0` is false
at entry for every positive `byteSize`, each outer iteration emits nothing. -/
def writeByteReversed (stream : List ℕ) (byteSize streamSize : ℕ) :
    Option (List ℕ) :=
  (wbrOffsets byteSize streamSize).foldl
    (fun acc _ => acc.bind fun l => (wbrInner byteSize).map fun e => l ++ e)
    (some [])

/-- The byte stream a big-endian host would write (edf2cfs.cpp lines
683-703, `LITTLEENDIAN` false): the seven single-byte header fields, the
`writeByteReversed` image of `nEpochs` (byteSize 2, streamSize 2), the
compression and hash flags, the `writeByteReversed` image of the digest
(byteSize 20, streamSize 20) and of the DEFLATE stream (byteSize 4). -/
def cfsBytesBE (e16 : ℕ) (sha defl : List ℕ) : Option (List ℕ) :=
  (writeByteReversed (u16le e16) 2 2).bind fun eb =>
  (writeByteReversed sha 20 20).bind fun sb =>
  (writeByteReversed defl 4 defl.length).map fun pb =>
  [67, 70, 83] ++ [1] ++ [32] ++ [32] ++ [3] ++ eb ++ [1] ++ [1] ++ sb ++ pb

/- ## Destination-file write stage (edf2cfs.cpp lines 675-705) -/

/-- The ten `fwrite` calls of the write stage in order (edf2cfs.cpp lines
683-703, little-endian path): signature, version, nFreq, nTimes, nChannels,
nEpochs, compression, hash, SHA-1 digest, DEFLATE stream. -/
def cfsChunks (e16 : ℕ) (sha defl : List ℕ) : List (List ℕ) :=
  [[67, 70, 83], [1], [32], [32], [3], u16le e16, [1], [1], sha, defl]

/-- Destination file content when the first `ok` `fwrite` calls succeed and
the remaining ones fail writing nothing.  Models edf2cfs.cpp lines 675-705:
`fopen(baseName.c_str(), "wb")` creates (or truncates) the destination
itself — no temporary file — every `fwrite` return value is ignored, the
file is closed and the function returns `true`; no code path removes or
renames the destination, so the file always exists (`some`) holding exactly
the bytes written so far. -/
def destContentAfter (chunks : List (List ℕ)) (ok : ℕ) : Option (List ℕ) :=
  some ((chunks.take ok).flatten)

/- ## FIR band-pass design (edf2cfs.cpp lines 717-724, sigpack/base/base.h) -/

/-- Embeds `double sp::sinc(double x)` (src/sigpack/base/base.h lines 20-26):
`1` at `x = 0`, otherwise `sin(PI*x)/(PI*x)`. -/
noncomputable def sinc (x : ℝ) : ℝ :=
  if x = 0 then 1 else Real.sin (Real.pi * x) / (Real.pi * x)

/-- Modelled from the spec: sigpack's window module
(`src/sigpack/window/window.h`, included by src/sigpack/sigpack.h line 23)
is not under `src/`.  Spec section 4.2 calls `w` "a length-(N+1) Hamming
window"; this is the standard symmetric Hamming window of length `N`:
`w[i] = 0.54 - 0.46*cos(2*PI*i/(N-1))`. -/
noncomputable def hamming (N : ℕ) (i : ℕ) : ℝ :=
  0.54 - 0.46 * Real.cos (2 * Real.pi * i / ((N : ℝ) - 1))

/-- Embeds `vec firBandPass(int N, double fl, double fh)` (edf2cfs.cpp lines
717-724): `b[i] = h[i]*( sp::sinc(fh*(i-N/2.0))*fh - sp::sinc(fl*(i-N/2.0))*fl )`
with `h = sp::hamming(N+1)`, and no renormalisation afterwards. -/
noncomputable def firBandPass (N : ℕ) (fl fh : ℝ) : ℕ → ℝ := fun i =>
  hamming (N + 1) i *
    (sinc (fh * ((i : ℝ) - (N : ℝ) / 2)) * fh - sinc (fl * ((i : ℝ) - (N : ℝ) / 2)) * fl)

/-- The spec's coefficient formula, written from its words (spec section
4.2 / claim C9): `h[i] = w[i] * ( fh*sinc(fh*(i - 25)) - fl*sinc(fl*(i - 25)) )`
with `w` a length-51 Hamming window, `fl = 2*flow/fs`, `fh = 2*fhigh/fs`. -/
noncomputable def specBandPassCoef (fs flow fhigh : ℝ) (i : ℕ) : ℝ :=
  hamming 51 i *
    ((2 * fhigh / fs) * sinc ((2 * fhigh / fs) * ((i : ℝ) - 25)) -
      (2 * flow / fs) * sinc ((2 * flow / fs) * ((i : ℝ) - 25)))

/-- Embeds `vec filterEOGL = firBandPass(FILTERORDER, 0.3 * 2 / fEL, 12 * 2 / fEL);`
(edf2cfs.cpp line 529), with `FILTERORDER = 50`. -/
noncomputable def filterEOGL (fEL : ℝ) : ℕ → ℝ :=
  firBandPass 50 (0.3 * 2 / fEL) (12 * 2 / fEL)

/-- Embeds the EOG-right filter selection (edf2cfs.cpp lines 530-535):
`if (fER == fEL) filterEOGR = firBandPass(FILTERORDER, 0.3*2/fER, 12*2/fER);
else filterEOGR = filterEOGL;`. -/
noncomputable def filterEOGR (fEL fER : ℝ) : ℕ → ℝ :=
  if fER = fEL then firBandPass 50 (0.3 * 2 / fER) (12 * 2 / fER)
  else filterEOGL fEL

/- ## STFT feature extraction (edf2cfs.cpp lines 592-621, sigpack/fftw/fftw.h) -/

/-- The length-`N` discrete Fourier transform computed by
`fftw_plan_dft_r2c_1d` (src/sigpack/fftw/fftw.h lines 133-153, used through
`fftObject.fft`): `X[k] = sum_n x[n] * exp(-2*PI*I*k*n/N)`, unnormalised. -/
noncomputable def dft (N : ℕ) (x : ℕ → ℝ) (k : ℕ) : ℂ :=
  ∑ n in Finset.range N, (x n : ℂ) * Complex.exp (-(2 * Real.pi * Complex.I * k * n) / N)

/-- One windowed frame magnitude: `abs(fftObject.fft(chan.subvec(base, base+127) % hamWindow))`
evaluated at frequency bin `f` (edf2cfs.cpp lines 598, 606-613, with
`hamWindow = sp::hamming(128)`). -/
noncomputable def frameMag (chan : ℕ → ℝ) (base f : ℕ) : ℝ :=
  Complex.abs (dft 128 (fun n => chan (base + n) * hamming 128 n) f)

/-- The frame start offsets visited by the inner loop
`for (int j = 0; j < 3000 - 128; j += 90)` (edf2cfs.cpp line 601): the
multiples of 90 below 2872, in ascending order. -/
def stftStarts : List ℕ :=
  (List.range (3000 - 128)).filter (fun j => j % 90 == 0)

/-- The (epoch, frame-start) pairs visited by the nested loops of
edf2cfs.cpp lines 600-601, outer epoch index first. -/
def loopIters (E : ℕ) : List (ℕ × ℕ) :=
  (List.range E).flatMap fun i => stftStarts.map fun j => (i, j)

/-- Start of the 32-slot payload block for epoch `i`, channel `c` (0 = EEG,
1 = EOG-left, 2 = EOG-right) and time bin `t`: the three `payload.subvec`
targets of edf2cfs.cpp lines 615-617 are
`i*epochSize + c*32*32 + tIDX*32 .. +31`. -/
def blockBase (i t c : ℕ) : ℕ := i * 3072 + c * 1024 + t * 32

/-- Whether the loop iteration `(i, j)` writes payload position `k`:
edf2cfs.cpp lines 615-617 write the three 32-slot blocks of epoch `i`,
time bin `tIDX = j / 90`. -/
def writesAt (it : ℕ × ℕ) (k : ℕ) : Prop :=
  (blockBase it.1 (it.2 / 90) 0 ≤ k ∧ k < blockBase it.1 (it.2 / 90) 0 + 32) ∨
  (blockBase it.1 (it.2 / 90) 1 ≤ k ∧ k < blockBase it.1 (it.2 / 90) 1 + 32) ∨
  (blockBase it.1 (it.2 / 90) 2 ≤ k ∧ k < blockBase it.1 (it.2 / 90) 2 + 32)

instance (it : ℕ × ℕ) (k : ℕ) : Decidable (writesAt it k) := by
  unfold writesAt; infer_instance

/-- Effect of one iteration of the nested loops (edf2cfs.cpp lines 600-620)
on the payload vector, as a function update: `tIDX = (int)j / 90` (line
604), then the three disjoint `subvec` assignments of lines 615-617 store
the first 32 magnitude bins of the windowed frames of `eegFilt`, `eoglFilt`
and `eogrFilt` starting at sample `i*3000 + j` (lines 606-613). -/
noncomputable def iterStep (eeg eogl eogr : ℕ → ℝ) (p : ℕ → ℝ) (it : ℕ × ℕ) :
    ℕ → ℝ := fun k =>
  if blockBase it.1 (it.2 / 90) 0 ≤ k ∧ k < blockBase it.1 (it.2 / 90) 0 + 32 then
    frameMag eeg (it.1 * 3000 + it.2) (k - blockBase it.1 (it.2 / 90) 0)
  else if blockBase it.1 (it.2 / 90) 1 ≤ k ∧ k < blockBase it.1 (it.2 / 90) 1 + 32 then
    frameMag eogl (it.1 * 3000 + it.2) (k - blockBase it.1 (it.2 / 90) 1)
  else if blockBase it.1 (it.2 / 90) 2 ≤ k ∧ k < blockBase it.1 (it.2 / 90) 2 + 32 then
    frameMag eogr (it.1 * 3000 + it.2) (k - blockBase it.1 (it.2 / 90) 2)
  else p k

/-- The payload vector after the nested spectrogram loops (edf2cfs.cpp lines
596-621), starting from `vec payload(epochs*epochSize, fill::zeros)`. -/
noncomputable def payloadFill (eeg eogl eogr : ℕ → ℝ) (E : ℕ) : ℕ → ℝ :=
  (loopIters E).foldl (iterStep eeg eogl eogr) (fun _ => 0)

/-- A concrete stand-in for the external SHA-1 primitive, used only to
instantiate witness theorems: it returns a fixed 20-byte digest. -/
def shaStub : List ℕ → List ℕ := fun _ => List.replicate 20 0

/-- A concrete stand-in for the external DEFLATE primitive, used only to
instantiate witness theorems. -/
def deflStub : List ℕ → List ℕ := fun _ => []

/- ## Helper lemmas -/

/-- The header list written out flat. -/
theorem cfsHeader_flat (e16 : ℕ) (sha : List ℕ) :
    cfsHeader e16 sha =
      67 :: 70 :: 83 :: 1 :: 32 :: 32 :: 3 :: e16 % 256 :: e16 / 256 % 256 :: 1 :: 1 :: sha := by
  simp [cfsHeader, u16le]

/-- The header is 31 bytes whenever the digest is 20 bytes. -/
theorem cfsHeader_length (e16 : ℕ) (sha : List ℕ) (h : sha.length = 20) :
    (cfsHeader e16 sha).length = 31 := by
  simp [cfsHeader, u16le, h]

/-- Centre tap of the order-50 band-pass: the Hamming window is 1 at index
25 (`0.54 - 0.46*cos(pi) = 1`) and both sinc arguments vanish, so the
coefficient collapses to `fh - fl`. -/
theorem firBandPass_center (fl fh : ℝ) : firBandPass 50 fl fh 25 = fh - fl := by
  unfold firBandPass hamming sinc
  have h0 : ((25 : ℕ) : ℝ) - ((50 : ℕ) : ℝ) / 2 = 0 := by norm_num
  have hcos : 2 * Real.pi * ((25 : ℕ) : ℝ) / (((50 + 1 : ℕ) : ℝ) - 1) = Real.pi := by
    push_cast
    ring
  rw [h0, mul_zero, mul_zero, hcos, Real.cos_pi]
  norm_num

/- ## Claim theorems -/

/-- C1: for every successfully converted input (little-endian host path),
the emitted CFS header is exactly 31 bytes: bytes 0-2 ASCII "CFS", byte 3
version 1, byte 4 nFreq 32, byte 5 nTimes 32, byte 6 nChannels 3, bytes 7-8
the epoch count as a little-endian uint16, byte 9 compression 1, byte 10
hash 1, bytes 11-30 the 20-byte SHA-1 digest of the uncompressed float32
payload; and for the 200 Hz / 600 s scenario (120000 samples resampled to
60000) the epoch count is 20 and the leading nine bytes are
43 46 53 01 20 20 03 14 00. -/
theorem C1_cfs_header_layout (sha1 deflate : List ℕ → List ℕ) (L : ℕ)
    (pb : List ℕ) (hsha : (sha1 pb).length = 20) :
    (cfsHeader (nEpochsField L) (sha1 pb)).length = 31 ∧
    (convertOutput sha1 deflate L pb).take 31 = cfsHeader (nEpochsField L) (sha1 pb) ∧
    cfsHeader (nEpochsField L) (sha1 pb) =
      [67, 70, 83, 1, 32, 32, 3,
        epochs L % 65536 % 256, epochs L % 65536 / 256 % 256, 1, 1] ++ sha1 pb ∧
    ((convertOutput sha1 deflate L pb).drop 11).take 20 = sha1 pb ∧
    epochs (resampledLen 120000 200) = 20 ∧
    (convertOutput sha1 deflate (resampledLen 120000 200) pb).take 9 =
      [67, 70, 83, 1, 32, 32, 3, 20, 0] := by
  have hlen := cfsHeader_length (nEpochsField L) (sha1 pb) hsha
  refine ⟨hlen, ?_, ?_, ?_, by decide, ?_⟩
  · rw [convertOutput, cfsBytesLE, ← hlen, List.take_left]
  · rw [cfsHeader_flat]; rfl
  · rw [convertOutput, cfsBytesLE, cfsHeader_flat]
    simp [List.take_left', hsha]
  · have h20 : nEpochsField (resampledLen 120000 200) = 20 := by decide
    rw [convertOutput, cfsBytesLE, cfsHeader_flat, h20]
    rfl

/-- C1 witness: the layout theorem instantiated at the stub SHA-1/DEFLATE
primitives, resampled length 0 and the empty payload. -/
theorem C1_cfs_header_layout_witness :
    (shaStub []).length = 20 ∧
    ((cfsHeader (nEpochsField 0) (shaStub [])).length = 31 ∧
      (convertOutput shaStub deflStub 0 []).take 31 =
        cfsHeader (nEpochsField 0) (shaStub []) ∧
      cfsHeader (nEpochsField 0) (shaStub []) =
        [67, 70, 83, 1, 32, 32, 3,
          epochs 0 % 65536 % 256, epochs 0 % 65536 / 256 % 256, 1, 1] ++ shaStub [] ∧
      ((convertOutput shaStub deflStub 0 []).drop 11).take 20 = shaStub [] ∧
      epochs (resampledLen 120000 200) = 20 ∧
      (convertOutput shaStub deflStub (resampledLen 120000 200) []).take 9 =
        [67, 70, 83, 1, 32, 32, 3, 20, 0]) :=
  ⟨by decide, C1_cfs_header_layout shaStub deflStub 0 [] (by decide)⟩

/-- C2: the epoch count equals `⌊L / 3000⌋` of the resampled EEG length
(trailing samples discarded), the uncompressed float32 payload is exactly
`epochs * 3 * 32 * 32 * 4` bytes, and an input with fewer than 3000
resampled samples yields zero epochs and an empty-payload but still valid
31-byte-header CFS. -/
theorem C2_epoch_count_payload (L : ℕ) (sha1 deflate : List ℕ → List ℕ)
    (hsha : (sha1 []).length = 20) :
    sourceLen (epochs L) = epochs L * 3 * 32 * 32 * 4 ∧
    3000 * epochs L ≤ L ∧ L < 3000 * (epochs L + 1) ∧
    (L < 3000 → epochs L = 0 ∧ sourceLen (epochs L) = 0 ∧
      (convertOutput sha1 deflate L []).take 31 = cfsHeader 0 (sha1 []) ∧
      (convertOutput sha1 deflate L []).length = 31 + (deflate []).length) := by
  refine ⟨by simp [sourceLen, epochSize]; ring, ?_, ?_, ?_⟩
  · unfold epochs; omega
  · unfold epochs; omega
  · intro hL
    have hE : epochs L = 0 := by unfold epochs; omega
    have h0 : nEpochsField L = 0 := by unfold nEpochsField; rw [hE]
    have hlen := cfsHeader_length (nEpochsField L) (sha1 []) hsha
    refine ⟨hE, by rw [hE]; simp [sourceLen], ?_, ?_⟩
    · rw [convertOutput, cfsBytesLE, ← hlen, List.take_left, h0]
    · rw [convertOutput, cfsBytesLE, List.length_append, hlen]

/-- C2 witness: the epoch-count theorem instantiated at resampled length
100 (fewer than 3000 samples) and the stub primitives. -/
theorem C2_epoch_count_payload_witness :
    (shaStub []).length = 20 ∧
    (sourceLen (epochs 100) = epochs 100 * 3 * 32 * 32 * 4 ∧
      3000 * epochs 100 ≤ 100 ∧ 100 < 3000 * (epochs 100 + 1) ∧
      (100 < 3000 → epochs 100 = 0 ∧ sourceLen (epochs 100) = 0 ∧
        (convertOutput shaStub deflStub 100 []).take 31 = cfsHeader 0 (shaStub []) ∧
        (convertOutput shaStub deflStub 100 []).length = 31 + (deflStub []).length)) :=
  ⟨by decide, C2_epoch_count_payload 100 shaStub deflStub (by decide)⟩

/-- C7 counterexample: a resampled EEG of 3000 * 65536 samples has epoch
count 65536, which the `uint16_t` cast truncates to 0, so the header field
differs from the computed epoch count and the artifact is still emitted. -/
theorem C7_uint16_counterexample :
    epochs (3000 * 65536) = 65536 ∧ nEpochsField (3000 * 65536) = 0 ∧
    nEpochsField (3000 * 65536) ≠ epochs (3000 * 65536) := by decide

/-- C7 (amended): the `n_epochs` header field stores the epoch count reduced
modulo 2^16 with no range check; it equals the computed epoch count exactly
when that count is below 65536. -/
theorem C7_epochs_field_amended :
    ∀ L : ℕ, nEpochsField L = epochs L ↔ epochs L < 65536 := by
  intro L
  unfold nEpochsField
  omega

/-- C3: evaluation of the label lookup at the failing input.  With the EDF
signal list holding the single label "C3A2" (bytes 67 51 65 50) and the
requested label "C3A2" typed exactly the same way, a case-insensitive match
exists (the claim demands index 0), but the code lowercases only the EDF
side and compares verbatim, so the lookup fails and the job errors out with
label-not-found for the C3 role; the same request pre-lowercased ("c3a2")
does match, and a lowercase EDF label matches an identical request at the
first index in signal order. -/
theorem C3_label_match_eval :
    strlwr [67, 51, 65, 50] = [99, 51, 97, 50] ∧
    findChannel [[67, 51, 65, 50]] [67, 51, 65, 50] = none ∧
    resolveChannels [[67, 51, 65, 50]]
      [67, 51, 65, 50] [67, 51, 65, 50] [67, 51, 65, 50] [67, 51, 65, 50] =
      .error 0 ∧
    findChannel [[67, 51, 65, 50]] [99, 51, 97, 50] = some 0 ∧
    findChannel [[99, 51, 97, 50], [99, 51, 97, 50]] [99, 51, 97, 50] = some 0 :=
  ⟨by decide, by decide, rfl, by decide, by decide⟩

/-- C6: evaluation of the big-endian emission path at a concrete input
(epoch field 20, all-zero 20-byte digest, one-byte DEFLATE stream).  The
inner loop of `writeByteReversed` (`for (int j = byteSize - 1; j < 0; j--)`)
never executes, so a big-endian host emits only the nine single-byte header
fields — not the byte-reversed multi-byte fields — and its disk image
differs from the little-endian image of the same input. -/
theorem C6_bigendian_eval :
    writeByteReversed (u16le 20) 2 2 = some [] ∧
    writeByteReversed (List.replicate 20 0) 20 20 = some [] ∧
    cfsBytesBE 20 (List.replicate 20 0) [0] =
      some [67, 70, 83, 1, 32, 32, 3, 1, 1] ∧
    (cfsBytesLE 20 (List.replicate 20 0) [0]).length = 32 ∧
    cfsBytesBE 20 (List.replicate 20 0) [0] ≠
      some (cfsBytesLE 20 (List.replicate 20 0) [0]) := by
  decide

/-- C8 counterexample: with the destination opened directly and every
`fwrite` result ignored, a write stage in which only the first `fwrite`
succeeds leaves the destination holding exactly the three signature bytes —
neither removed nor complete — refuting "the container writer either
completes the destination file in full or removes its target". -/
theorem C8_write_failure_counterexample :
    ¬ (∀ ok : ℕ,
      destContentAfter (cfsChunks 20 (List.replicate 20 0) [0]) ok = none ∨
      destContentAfter (cfsChunks 20 (List.replicate 20 0) [0]) ok =
        some (cfsBytesLE 20 (List.replicate 20 0) [0])) := by
  intro h
  rcases h 1 with h1 | h1 <;> exact absurd h1 (by decide)

/-- C8 (amended): the writer opens the destination path itself (no
temporary file, no rename) and appends the ten chunks in order; `fwrite`
results are unchecked and no code path removes the file, so after a write
failure the destination always still exists and holds a prefix of the full
image — possibly a proper partial file. -/
theorem C8_write_stage_amended :
    ∀ (e16 : ℕ) (sha defl : List ℕ) (ok : ℕ),
      (cfsChunks e16 sha defl).flatten = cfsBytesLE e16 sha defl ∧
      ∃ bs rest, destContentAfter (cfsChunks e16 sha defl) ok = some bs ∧
        bs ++ rest = cfsBytesLE e16 sha defl := by
  intro e16 sha defl ok
  have hflat : (cfsChunks e16 sha defl).flatten = cfsBytesLE e16 sha defl := by
    simp [cfsChunks, cfsBytesLE, cfsHeader, u16le]
  refine ⟨hflat, ((cfsChunks e16 sha defl).take ok).flatten,
    ((cfsChunks e16 sha defl).drop ok).flatten, rfl, ?_⟩
  rw [← List.flatten_append, List.take_append_drop, hflat]

/-- C10: the sample count requested from each of the four channels and the
size of each of the four raw-sample buffers is the C3 channel's
samples-in-file count; no other channel's own sample count influences the
buffer sizing or the read requests. -/
theorem C10_read_sizes (sig sig' : ℕ → SigParam)
    (nC3 nC4 nEL nER nC4' nEL' nER' : ℕ)
    (h : (sig nC3).smp_in_file = (sig' nC3).smp_in_file) :
    bufSizes sig nC3 nC4 nEL nER =
      ((sig nC3).smp_in_file, (sig nC3).smp_in_file,
        (sig nC3).smp_in_file, (sig nC3).smp_in_file) ∧
    readCounts sig nC3 nC4 nEL nER = bufSizes sig nC3 nC4 nEL nER ∧
    bufSizes sig nC3 nC4 nEL nER = bufSizes sig' nC3 nC4' nEL' nER' ∧
    readCounts sig nC3 nC4 nEL nER = readCounts sig' nC3 nC4' nEL' nER' := by
  unfold bufSizes readCounts totSamples
  rw [h]
  exact ⟨rfl, rfl, rfl, rfl⟩

/-- C10 witness: two signal tables that agree on the C3 channel's
samples-in-file count (index 0, 5 samples) but disagree on every other
channel's metadata give identical buffer sizes and read requests. -/
theorem C10_read_sizes_witness :
    ((fun i => if i = 0 then SigParam.mk 5 1 else SigParam.mk 3 1) 0).smp_in_file =
      ((fun _ : ℕ => SigParam.mk 5 2) 0).smp_in_file ∧
    (bufSizes (fun i => if i = 0 then SigParam.mk 5 1 else SigParam.mk 3 1) 0 1 2 3 =
        (5, 5, 5, 5) ∧
      readCounts (fun i => if i = 0 then SigParam.mk 5 1 else SigParam.mk 3 1) 0 1 2 3 =
        bufSizes (fun i => if i = 0 then SigParam.mk 5 1 else SigParam.mk 3 1) 0 1 2 3 ∧
      bufSizes (fun i => if i = 0 then SigParam.mk 5 1 else SigParam.mk 3 1) 0 1 2 3 =
        bufSizes (fun _ : ℕ => SigParam.mk 5 2) 0 2 3 1 ∧
      readCounts (fun i => if i = 0 then SigParam.mk 5 1 else SigParam.mk 3 1) 0 1 2 3 =
        readCounts (fun _ : ℕ => SigParam.mk 5 2) 0 2 3 1) :=
  ⟨by decide, C10_read_sizes _ _ 0 1 2 3 2 3 1 (by decide)⟩

/-- C9: for every channel rate `fs`, passband edges `flow`/`fhigh` and
index `i`, the coefficient designed by `firBandPass(50, flow*2/fs,
fhigh*2/fs)` — the exact call shape of edf2cfs.cpp lines 528-533 — equals
the spec's formula `w[i] * ( fh*sinc(fh*(i-25)) - fl*sinc(fl*(i-25)) )`
with `fl = 2*flow/fs`, `fh = 2*fhigh/fs` and `w` a length-51 Hamming
window, with no renormalisation after windowing. -/
theorem C9_fir_formula : ∀ (fs flow fhigh : ℝ) (i : ℕ),
    firBandPass 50 (flow * 2 / fs) (fhigh * 2 / fs) i = specBandPassCoef fs flow fhigh i := by
  intro fs flow fhigh i
  unfold firBandPass specBandPassCoef
  have e1 : flow * 2 / fs = 2 * flow / fs := by ring
  have e2 : fhigh * 2 / fs = 2 * fhigh / fs := by ring
  have e3 : ((i : ℝ) - ((50 : ℕ) : ℝ) / 2) = (i : ℝ) - 25 := by norm_num
  rw [e1, e2, e3]
  ring_nf

/-- C4: evaluation of the EOG filter selection.  When the two EOG rates are
equal the code designs the right filter from `fER`, which coincides with the
left filter; but when the rates differ (failing input `fEL = 200`,
`fER = 256`) the code reuses the left coefficients — designed from `fEL` —
for the right channel, and at the centre tap that value (0.117) differs
from the coefficient a design from `fER = 256` would give (23.4/256). -/
theorem C4_eog_filter_eval :
    filterEOGR 200 256 = filterEOGL 200 ∧
    (∀ f : ℝ, filterEOGR f f = firBandPass 50 (0.3 * 2 / f) (12 * 2 / f)) ∧
    filterEOGR 200 256 25 ≠ firBandPass 50 (0.3 * 2 / 256) (12 * 2 / 256) 25 := by
  have hne : (256 : ℝ) ≠ 200 := by norm_num
  refine ⟨?_, ?_, ?_⟩
  · unfold filterEOGR
    rw [if_neg hne]
  · intro f
    unfold filterEOGR
    rw [if_pos rfl]
  · unfold filterEOGR
    rw [if_neg hne]
    unfold filterEOGL
    rw [firBandPass_center, firBandPass_center]
    norm_num

/-- Membership in the frame-start list: exactly the multiples of 90 below
`3000 - 128 = 2872`. -/
theorem mem_stftStarts {j : ℕ} : j ∈ stftStarts ↔ j % 90 = 0 ∧ j < 2872 := by
  unfold stftStarts
  simp only [List.mem_filter, List.mem_range, beq_iff_eq]
  omega

/-- The frame starts are exactly the offsets `90*t` for the 32 time bins
`t = 0..31`. -/
theorem stftStarts_iff {j : ℕ} : j ∈ stftStarts ↔ ∃ t, t < 32 ∧ j = 90 * t := by
  rw [mem_stftStarts]
  constructor
  · intro ⟨hmod, hlt⟩
    exact ⟨j / 90, by omega, by omega⟩
  · intro ⟨t, ht, hj⟩
    omega

/-- When an iteration writes position `k`, the value it stores there does
not depend on the incoming payload. -/
theorem iterStep_indep (eeg eogl eogr : ℕ → ℝ) (p q : ℕ → ℝ) (it : ℕ × ℕ) (k : ℕ)
    (h : writesAt it k) :
    iterStep eeg eogl eogr p it k = iterStep eeg eogl eogr q it k := by
  unfold writesAt at h
  unfold iterStep
  by_cases h0 : blockBase it.1 (it.2 / 90) 0 ≤ k ∧ k < blockBase it.1 (it.2 / 90) 0 + 32
  · rw [if_pos h0, if_pos h0]
  · by_cases h1 : blockBase it.1 (it.2 / 90) 1 ≤ k ∧ k < blockBase it.1 (it.2 / 90) 1 + 32
    · rw [if_neg h0, if_neg h0, if_pos h1, if_pos h1]
    · by_cases h2 : blockBase it.1 (it.2 / 90) 2 ≤ k ∧ k < blockBase it.1 (it.2 / 90) 2 + 32
      · rw [if_neg h0, if_neg h0, if_neg h1, if_neg h1, if_pos h2, if_pos h2]
      · rcases h with h | h | h
        · exact absurd h h0
        · exact absurd h h1
        · exact absurd h h2

/-- Positions no listed iteration writes keep their incoming value. -/
theorem foldl_no_write (eeg eogl eogr : ℕ → ℝ) (k : ℕ) :
    ∀ (L : List (ℕ × ℕ)) (p : ℕ → ℝ), (∀ it ∈ L, ¬ writesAt it k) →
      (L.foldl (iterStep eeg eogl eogr) p) k = p k := by
  intro L
  induction L with
  | nil => intro p _; rfl
  | cons a l ih =>
    intro p h
    rw [List.foldl_cons, ih _ (fun it hit => h it (List.mem_cons_of_mem a hit))]
    have ha := h a (List.mem_cons_self a l)
    unfold writesAt at ha
    rw [not_or, not_or] at ha
    obtain ⟨hA, hB, hC⟩ := ha
    unfold iterStep
    rw [if_neg hA, if_neg hB, if_neg hC]

/-- A position written by exactly one listed iteration ends up holding that
iteration's value. -/
theorem foldl_unique_write (eeg eogl eogr : ℕ → ℝ) (k : ℕ) (it0 : ℕ × ℕ)
    (hw : writesAt it0 k) :
    ∀ (L : List (ℕ × ℕ)) (p : ℕ → ℝ), it0 ∈ L →
      (∀ it ∈ L, writesAt it k → it = it0) →
      (L.foldl (iterStep eeg eogl eogr) p) k =
        iterStep eeg eogl eogr (fun _ => 0) it0 k := by
  intro L
  induction L with
  | nil => intro p h0 _; exact absurd h0 (List.not_mem_nil it0)
  | cons a l ih =>
    intro p h0 hu
    rw [List.foldl_cons]
    by_cases hm : it0 ∈ l
    · exact ih _ hm (fun it hit => hu it (List.mem_cons_of_mem a hit))
    · have ha : a = it0 := by
        rcases List.mem_cons.mp h0 with h | h
        · exact h.symm
        · exact absurd h hm
      subst ha
      rw [foldl_no_write eeg eogl eogr k l _ ?noW]
      · exact iterStep_indep eeg eogl eogr p (fun _ => 0) a k hw
      case noW =>
        intro it hit hw2
        exact absurd ((hu it (List.mem_cons_of_mem a hit) hw2) ▸ hit) hm

/-- The iteration `(i, 90*t)` is visited by the nested loops whenever
`i < E` and `t < 32`. -/
theorem it0_mem {E i t : ℕ} (hi : i < E) (ht : t < 32) :
    (i, 90 * t) ∈ loopIters E := by
  unfold loopIters
  refine List.mem_flatMap.mpr ⟨i, List.mem_range.mpr hi, ?_⟩
  exact List.mem_map.mpr ⟨90 * t, mem_stftStarts.mpr ⟨by omega, by omega⟩, rfl⟩

/-- The iteration `(i, 90*t)` writes every position of its three epoch-`i`,
time-bin-`t` blocks. -/
theorem it0_writes {i t c f : ℕ} (ht : t < 32) (hc : c < 3) (hf : f < 32) :
    writesAt (i, 90 * t) (blockBase i t c + f) := by
  unfold writesAt blockBase
  have h90 : 90 * t / 90 = t := by omega
  simp only [h90]
  rcases (by omega : c = 0 ∨ c = 1 ∨ c = 2) with rfl | rfl | rfl
  · left; omega
  · right; left; omega
  · right; right; omega

/-- No other visited iteration writes a position of the epoch-`i`,
time-bin-`t` blocks: the three payload block families are pairwise
disjoint across epochs, channels and time bins. -/
theorem writes_unique {E i t c f : ℕ} (hi : i < E) (ht : t < 32) (hc : c < 3)
    (hf : f < 32) {it : ℕ × ℕ} (hmem : it ∈ loopIters E)
    (hw : writesAt it (blockBase i t c + f)) : it = (i, 90 * t) := by
  unfold loopIters at hmem
  obtain ⟨i', _, hrest⟩ := List.mem_flatMap.mp hmem
  obtain ⟨j', hj', heq⟩ := List.mem_map.mp hrest
  subst heq
  obtain ⟨hmod, hlt⟩ := mem_stftStarts.mp hj'
  have hj90 : j' = 90 * (j' / 90) := by omega
  have ht' : j' / 90 < 32 := by omega
  unfold writesAt blockBase at hw
  simp only at hw
  have hit : i' = i ∧ j' / 90 = t := by
    rcases hw with h | h | h <;> omega
  rw [Prod.mk.injEq]
  exact ⟨hit.1, by omega⟩

/-- Value stored by iteration `(i, 90*t)` at offset `f` of each of its
three channel blocks. -/
theorem iterStep_value {i t f : ℕ} (ht : t < 32) (hf : f < 32)
    (eeg eogl eogr : ℕ → ℝ) :
    iterStep eeg eogl eogr (fun _ => 0) (i, 90 * t) (blockBase i t 0 + f) =
      frameMag eeg (i * 3000 + 90 * t) f ∧
    iterStep eeg eogl eogr (fun _ => 0) (i, 90 * t) (blockBase i t 1 + f) =
      frameMag eogl (i * 3000 + 90 * t) f ∧
    iterStep eeg eogl eogr (fun _ => 0) (i, 90 * t) (blockBase i t 2 + f) =
      frameMag eogr (i * 3000 + 90 * t) f := by
  unfold iterStep blockBase
  have h90 : 90 * t / 90 = t := by omega
  simp only [h90]
  refine ⟨?_, ?_, ?_⟩
  · rw [if_pos (by omega)]
    congr 1
    omega
  · rw [if_neg (by omega), if_pos (by omega)]
    congr 1
    omega
  · rw [if_neg (by omega), if_neg (by omega), if_pos (by omega)]
    congr 1
    omega

/-- C5 counterexample: 2850 is not a frame start of the STFT loop — the
starts are the multiples of the hop 90 below `3000 - 128`, whose largest
element is 2790 — refuting "the last valid start at 2850". -/
theorem C5_last_start_counterexample :
    ¬ ((2850 : ℕ) ∈ stftStarts) ∧ (2790 : ℕ) ∈ stftStarts ∧
    ∀ j ∈ stftStarts, j ≤ 2790 := by
  refine ⟨?_, mem_stftStarts.mpr (by norm_num), ?_⟩
  · intro h
    have := mem_stftStarts.mp h
    omega
  · intro j hj
    have := mem_stftStarts.mp hj
    omega

/-- C5 (amended): for every epoch and channel the feature extractor
produces exactly 32 time bins, bin `t` coming from the 128-sample frame at
offset `j = 90*t` of the 3000-sample epoch; every start satisfies
`j + 128 ≤ 3000`, the last valid start being 2790 (not 2850); the frame is
multiplied pointwise by a length-128 Hamming window and the first 32
magnitude bins of its length-128 DFT (DC through bin 31) form the
frequency axis of the payload tensor. -/
theorem C5_stft_amended :
    (∀ j, j ∈ stftStarts ↔ ∃ t, t < 32 ∧ j = 90 * t) ∧
    (∀ j ∈ stftStarts, j + 128 ≤ 3000 ∧ j ≤ 2790) ∧
    (∀ (eeg eogl eogr : ℕ → ℝ) (E i t f : ℕ), i < E → t < 32 → f < 32 →
      payloadFill eeg eogl eogr E (blockBase i t 0 + f) =
        frameMag eeg (i * 3000 + 90 * t) f ∧
      payloadFill eeg eogl eogr E (blockBase i t 1 + f) =
        frameMag eogl (i * 3000 + 90 * t) f ∧
      payloadFill eeg eogl eogr E (blockBase i t 2 + f) =
        frameMag eogr (i * 3000 + 90 * t) f) := by
  refine ⟨fun j => stftStarts_iff, ?_, ?_⟩
  · intro j hj
    have := mem_stftStarts.mp hj
    omega
  · intro eeg eogl eogr E i t f hi ht hf
    have hmem := it0_mem hi ht
    unfold payloadFill
    refine ⟨?_, ?_, ?_⟩
    · rw [foldl_unique_write eeg eogl eogr (blockBase i t 0 + f) (i, 90 * t)
        (it0_writes ht (by omega) hf) (loopIters E) (fun _ => 0) hmem
        (fun it hit hw => writes_unique hi ht (by omega) hf hit hw)]
      exact (iterStep_value ht hf eeg eogl eogr).1
    · rw [foldl_unique_write eeg eogl eogr (blockBase i t 1 + f) (i, 90 * t)
        (it0_writes ht (by omega) hf) (loopIters E) (fun _ => 0) hmem
        (fun it hit hw => writes_unique hi ht (by omega) hf hit hw)]
      exact (iterStep_value ht hf eeg eogl eogr).2.1
    · rw [foldl_unique_write eeg eogl eogr (blockBase i t 2 + f) (i, 90 * t)
        (it0_writes ht (by omega) hf) (loopIters E) (fun _ => 0) hmem
        (fun it hit hw => writes_unique hi ht (by omega) hf hit hw)]
      exact (iterStep_value ht hf eeg eogl eogr).2.2

/-- C5 witness: the amended STFT theorem instantiated at epoch 0 of a
single-epoch run, time bin 0, frequency bin 0, with constant channel
signals. -/
theorem C5_stft_amended_witness :
    ((0 : ℕ) ∈ stftStarts ↔ ∃ t, t < 32 ∧ (0 : ℕ) = 90 * t) ∧
    (0 + 128 ≤ 3000 ∧ (0 : ℕ) ≤ 2790) ∧
    ((0 : ℕ) < 1 ∧ (0 : ℕ) < 32 ∧ (0 : ℕ) < 32) ∧
    payloadFill (fun _ => 1) (fun _ => 2) (fun _ => 3) 1 (blockBase 0 0 0 + 0) =
      frameMag (fun _ => 1) (0 * 3000 + 90 * 0) 0 :=
  ⟨C5_stft_amended.1 0,
    C5_stft_amended.2.1 0 (mem_stftStarts.mpr ⟨by norm_num, by norm_num⟩),
    ⟨by norm_num, by norm_num, by norm_num⟩,
    (C5_stft_amended.2.2 (fun _ => 1) (fun _ => 2) (fun _ => 3) 1 0 0 0
      (by norm_num) (by norm_num) (by norm_num)).1⟩

end Edf2Cfs
